import Mathlib

/-!
Verification of the CosmicArchive version-checker pipeline (`src/main.rs`).

The development shallowly embeds the program: strings of the hex codec are
modelled as byte lists (Rust `str` is UTF-8 bytes and all hex characters are
ASCII), filesystem and network effects are passed explicitly, and the SHA-256
compression function itself is kept as an abstract parameter `sha` (its
implementation lives in the external `sha2` crate); what the source contributes
— streaming, state reuse, reset discipline, set membership — is embedded
faithfully.
-/

/-! ## Log events

Log calls (`error!`, `warn!`, `info!`, `debug!` of the `log` facade) are
modelled by their severity level; messages go to stderr. -/

inductive LogLevel where
  | debug
  | info
  | warn
  | error
deriving DecidableEq, Repr

/-! ## OS strings and paths

A Rust `OsStr` is either valid UTF-8 (then `to_str` succeeds) or not.
A `PathBuf` made only of normal components is a list of `OsStrM`. -/

inductive OsStrM where
  | utf8 (s : String)
  | raw (bs : List Nat)
deriving DecidableEq, Repr

/-- Model of `OsStr::to_str`: `some` exactly on valid UTF-8. -/
def osToStr : OsStrM → Option String
  | .utf8 s => some s
  | .raw _ => none

/-- Paths whose components are all `Component::Normal`, as produced by the
sanitizer; `PathBuf::join` on such a path is list append. -/
abbrev PathM := List OsStrM

/-- Model of `Path::file_name` for a path of normal components: the last
component (none for the empty path). -/
def fileNameM (p : PathM) : Option OsStrM := p.getLast?

/-- Component of a raw ZIP entry name as parsed by `std::path::Path::components`
after the zip crate's NUL-truncation and separator normalization. -/
inductive ZipComponent where
  | rootDir
  | curDir
  | parentDir
  | normal (c : OsStrM)
deriving DecidableEq, Repr

/-- Modelled from the spec: the external zip crate's `ZipFile::mangled_name`
("the sanitized relative name (path-traversal-safe: any `..` or absolute
components are stripped; the resulting path must lie under the destination
directory)") — keep only the normal components, dropping root, `.` and `..`. -/
def mangledName (raw : List ZipComponent) : PathM :=
  raw.filterMap (fun comp =>
    match comp with
    | .normal c => some c
    | _ => none)

/-! ## String predicates used by the selection rule -/

/-- Model of `str::starts_with` with a string pattern (first argument the
haystack's characters, second the pattern's). -/
def charsStart : List Char → List Char → Bool
  | _, [] => true
  | [], _ :: _ => false
  | s :: ss, p :: ps => s = p && charsStart ss ps

/-- Model of `str::starts_with`. -/
def strStartsWith (s pat : String) : Bool := charsStart s.data pat.data

/-- ASCII lowercase on a code point, as `u8::to_ascii_lowercase`. -/
def lowerByte (n : Nat) : Nat := if 65 ≤ n ∧ n ≤ 90 then n + 32 else n

/-- Model of `OsStr::eq_ignore_ascii_case` on decoded strings. -/
def eqIgnoreAsciiCase (a b : String) : Bool :=
  a.data.map (fun c => lowerByte c.toNat) = b.data.map (fun c => lowerByte c.toNat)

/-- Helper scanning a reversed character list for the extension: characters
strictly before the last `.`-split point. -/
def extRev : List Char → Option (List Char)
  | [] => none
  | c :: rest =>
    if c = '.' then (if rest.isEmpty then none else some [])
    else (extRev rest).map (fun e => c :: e)

/-- Model of `Path::extension` on the file name: the portion after the last
`.`, none when there is no `.` or the only `.` leads the name. -/
def extensionOf (s : String) : Option String :=
  (extRev s.data.reverse).map (fun e => String.mk e.reverse)

/-! ## Entry selection and extraction (`download_game_jars`, lines 223–264) -/

/-- One archive entry together with the fallible effects its processing can
meet: `accessOk` models `archive.by_index`, `createOk` models `File::create`,
`copyOk` models `std::io::copy` into the created file. -/
structure ZipEntry where
  rawName : List ZipComponent
  accessOk : Bool
  createOk : Bool
  copyOk : Bool
deriving DecidableEq, Repr

/-- Destination directory for one download identifier: the decimal form of the
identifier (`PathBuf::from(download_id.to_string())`). -/
def destDir (id : Nat) : PathM := [OsStrM.utf8 (Nat.repr id)]

/-- The selection test of lines 234–239: the decoded file name starts with
`Cosmic Reach-` and the path's extension equals `jar` up to ASCII case. -/
def isGameJar (rel : PathM) : Bool :=
  match (fileNameM rel).bind osToStr with
  | some fn =>
      strStartsWith fn "Cosmic Reach-" &&
        (match extensionOf fn with
         | some ext => eqIgnoreAsciiCase ext "jar"
         | none => false)
  | none => false

/-- Processing of one entry inside the `filter_map` of line 223: returns the
extracted path when the entry is selected and every filesystem step succeeds. -/
def processEntry (dest : PathM) (e : ZipEntry) : Option PathM :=
  if !e.accessOk then none
  else
    let rel := mangledName e.rawName
    if isGameJar rel then
      if e.createOk then (if e.copyOk then some (dest ++ rel) else none) else none
    else none

/-- The files `File::create` opens for writing while processing one entry (a
created file persists even when the subsequent copy fails). -/
def entryWrites (dest : PathM) (e : ZipEntry) : List PathM :=
  if e.accessOk && isGameJar (mangledName e.rawName) && e.createOk then
    [dest ++ mangledName e.rawName]
  else []

/-- Paths returned by one retrieval task for identifier `id` (line 223's
`filter_map … collect_vec`). -/
def taskPaths (id : Nat) (entries : List ZipEntry) : List PathM :=
  entries.filterMap (processEntry (destDir id))

example :
    processEntry (destDir 9)
      { rawName := [ZipComponent.normal (OsStrM.utf8 "Cosmic Reach-1.0.jar")],
        accessOk := true, createOk := true, copyOk := true }
      = some [OsStrM.utf8 "9", OsStrM.utf8 "Cosmic Reach-1.0.jar"] := by decide

example :
    processEntry (destDir 9)
      { rawName := [ZipComponent.normal (OsStrM.utf8 "cosmic-reach-1.0.zip")],
        accessOk := true, createOk := true, copyOk := true }
      = none := by decide

example :
    processEntry (destDir 9)
      { rawName := [ZipComponent.normal (OsStrM.utf8 "Cosmic Reach-1.0.JAR")],
        accessOk := true, createOk := true, copyOk := true }
      = some [OsStrM.utf8 "9", OsStrM.utf8 "Cosmic Reach-1.0.JAR"] := by decide

/-! ## Digest comparator (`is_version_unarchived`, lines 269–318)

The SHA-256 compression itself lives in the external `sha2` crate and is kept
abstract as a function `sha` from absorbed byte sequences to digests; the
streaming discipline — the hasher accumulates absorbed bytes across `copy`
calls and is emptied only by `finalize_into_reset` — is embedded explicitly. -/

/-- Digests are 32-octet values; octets are naturals below 256. -/
abbrev DigestM := List Nat

/-- Outcome of opening and sequentially reading one file: the open can fail,
the read can fail after delivering a proper initial part of the bytes, or the
full content is delivered. -/
inductive FileReadM where
  | openFail
  | readFailAfter (got : List Nat)
  | ok (content : List Nat)
deriving DecidableEq, Repr

/-- Result of one `is_version_unarchived` call: the returned boolean, the
hasher's absorbed-byte state after the call, and the emitted log levels. -/
structure UnarchivedResult where
  value : Bool
  hasher : List Nat
  logs : List LogLevel
deriving DecidableEq, Repr

/-- Model of `is_version_unarchived`: `hasher` is the absorbed-byte state of
the shared `sha2::Sha256` at entry. On open failure it returns `false` leaving
the hasher untouched; on a mid-read failure `std::io::copy` has already
absorbed the delivered bytes and the function returns `false` without a reset;
on success it finalizes `sha` over everything absorbed, resets, and answers
membership in `archived_hashes`. The 32-octet output buffer always matches, so
`finalize_into_reset` never errors. -/
def isVersionUnarchived (sha : List Nat → DigestM) (archivedHashes : List DigestM)
    (hasher : List Nat) (file : FileReadM) : UnarchivedResult :=
  match file with
  | .openFail => { value := false, hasher := hasher, logs := [.info, .error] }
  | .readFailAfter got =>
      { value := false, hasher := hasher ++ got, logs := [.info, .info, .error] }
  | .ok content =>
      let digest := sha (hasher ++ content)
      if archivedHashes.contains digest then
        { value := false, hasher := [], logs := [.info, .info, .info, .debug, .warn] }
      else
        { value := true, hasher := [], logs := [.info, .info, .info, .debug] }

/-! ## Hex codec of `Sha256Hash` (lines 396–423)

Rust strings are UTF-8 byte sequences and every character involved is ASCII,
so text is modelled as byte lists. -/

/-- Value of one hex digit byte as the `hex` crate's `val`: accepts `0-9`,
`a-f` and `A-F`. -/
def hexVal (b : Nat) : Option Nat :=
  if 48 ≤ b ∧ b ≤ 57 then some (b - 48)
  else if 97 ≤ b ∧ b ≤ 102 then some (b - 87)
  else if 65 ≤ b ∧ b ≤ 70 then some (b - 55)
  else none

/-- Decoding of consecutive digit pairs into bytes (`hex::decode_to_slice`
after its length check). -/
def decodePairs : List Nat → Option (List Nat)
  | [] => some []
  | [_] => none
  | b1 :: b2 :: rest =>
    match hexVal b1, hexVal b2, decodePairs rest with
    | some v1, some v2, some tail => some ((16 * v1 + v2) :: tail)
    | _, _, _ => none

/-- Model of `Sha256Hash::from_str` / `TryFrom<String>`: `hex::decode_to_slice`
into a 32-byte array first demands exactly 64 input bytes. -/
def sha256FromStr (s : List Nat) : Option DigestM :=
  if s.length = 64 then decodePairs s else none

/-- Lowercase hex digit byte of a nibble (`hex::encode` uses the lowercase
alphabet). -/
def hexDigitByte (n : Nat) : Nat := if n < 10 then 48 + n else 87 + n

/-- Model of `hex::encode` on one byte. -/
def encodeByte (b : Nat) : List Nat := [hexDigitByte (b % 256 / 16), hexDigitByte (b % 16)]

/-- Model of `String::from(hash)` / `Display`: `hex::encode` over the 32
octets, producing 64 lowercase hex digit bytes. -/
def sha256ToStr (d : DigestM) : List Nat := d.flatMap encodeByte

/-- A byte is a lowercase hex digit. -/
def isLowerHexDigit (b : Nat) : Bool := (48 ≤ b ∧ b ≤ 57) ∨ (97 ≤ b ∧ b ≤ 102)

example : sha256FromStr (sha256ToStr (List.replicate 32 171)) = some (List.replicate 32 171) := by decide
example : sha256FromStr (List.replicate 64 65) = some (List.replicate 32 170) := by decide
example : sha256FromStr (List.replicate 63 97) = none := by decide

/-! ## Manifest fetch (`get_version_hashes`, lines 82–133)

JSON deserialization lives in the external `serde_json` crate and is a
parameter `parse`; the byte stream handed to it, the dump destination on parse
failure, and the reduction of records to their `sha256` fields are embedded. -/

/-- One record of the `versions` array; only `sha256` is consumed. -/
structure VersionM where
  idStr : String
  kind : String
  releaseTime : Nat
  url : String
  sha256 : DigestM
  size : Nat
deriving DecidableEq, Repr

/-- The manifest document shape. -/
structure VersionsM where
  latest : List (String × String)
  versions : List VersionM
deriving DecidableEq, Repr

/-- Outcome of the GET against the manifest URL, up to delivery of the body
bytes: the send can fail, the status can be non-2xx, the body read can fail,
or the full body arrives. -/
inductive RespOutcome where
  | sendFail
  | badStatus
  | bytesFail
  | gotBody (body : List Nat)
deriving DecidableEq, Repr

/-- Result of `get_version_hashes`: the returned value, the chunks written to
standard output, and the emitted log levels (stderr). -/
structure FetchResult where
  result : Except Unit (List DigestM)
  stdoutChunks : List (List Nat)
  logs : List LogLevel
deriving Repr

/-- Model of `get_version_hashes`. On a deserialization failure (line 112's
`Err` arm) the received bytes are dumped to STDOUT — `stdout().write_all` at
line 118 — before `Err(())` is returned; the surrounding diagnostics are
`error!` logs on stderr. On success the records are reduced to their `sha256`
fields. -/
def getVersionHashes (parse : List Nat → Option VersionsM) (resp : RespOutcome) :
    FetchResult :=
  match resp with
  | .sendFail => { result := .error (), stdoutChunks := [], logs := [.info, .debug, .error] }
  | .badStatus => { result := .error (), stdoutChunks := [], logs := [.info, .debug, .error] }
  | .bytesFail =>
      { result := .error (), stdoutChunks := [],
        logs := [.info, .debug, .info, .error, .error] }
  | .gotBody body =>
      match parse body with
      | none =>
          { result := .error (), stdoutChunks := [body],
            logs := [.info, .debug, .info, .info, .error, .error] }
      | some versions =>
          { result := .ok (versions.versions.map (·.sha256)), stdoutChunks := [],
            logs := [.info, .debug, .info, .info, .info] }

/-! ## Retrieval task effects (`download_game_jars`, lines 163–267)

For the filesystem claims the task is replayed against an explicit filesystem,
a list of existing paths that the task's `create_dir` / `File::create` calls
can only extend; nothing in the task removes entries. The four network steps
(download info, GET send, status check, body read) all precede any filesystem
effect and are collapsed into one `netOk` flag. -/

/-- Effect environment of one retrieval task. `dirCreateFail` models a
`create_dir` failure other than `AlreadyExists`; `zipOk` models whether
`ZipArchive::new` accepts the body. -/
structure TaskEnv where
  netOk : Bool
  dirCreateFail : Bool
  zipOk : Bool
  entries : List ZipEntry
deriving DecidableEq, Repr

/-- Result of one retrieval task replay: its returned value, the filesystem
after the task, and the levels it logged (per-entry logs omitted). -/
structure TaskRun where
  result : Except Unit (List PathM)
  fs : List PathM
  logs : List LogLevel
deriving Repr

/-- Model of `download_game_jars` run against filesystem `fs` for identifier
`id`. Directory creation (line 205) happens after the network steps and before
`ZipArchive::new` (line 215); `AlreadyExists` is tolerated (line 206); every
failing step emits an `error!` before the task returns `Err(())`. -/
def downloadGameJarsFs (env : TaskEnv) (id : Nat) (fs : List PathM) : TaskRun :=
  if !env.netOk then ⟨.error (), fs, [.info, .error]⟩
  else
    let dest := destDir id
    if dest ∈ fs then
      if env.zipOk then
        ⟨.ok (env.entries.filterMap (processEntry dest)),
         fs ++ env.entries.flatMap (entryWrites dest),
         [.info, .info, .debug, .info, .info]⟩
      else ⟨.error (), fs, [.info, .info, .debug, .info, .info, .error]⟩
    else if env.dirCreateFail then
      ⟨.error (), fs, [.info, .info, .debug, .error]⟩
    else
      if env.zipOk then
        ⟨.ok (env.entries.filterMap (processEntry dest)),
         (fs ++ [dest]) ++ env.entries.flatMap (entryWrites dest),
         [.info, .info, .debug, .info]⟩
      else ⟨.error (), fs ++ [dest], [.info, .info, .debug, .info, .error]⟩

/-! ## Orchestration (`main`, lines 34–80) -/

/-- Outcome of one joined retrieval task as observed by the `while let` loop
of line 54: the join itself can error (`Err(cause)`), the task can fail
(`Ok(Err(()))`), or it finishes with its extracted paths. -/
inductive JoinOutcome where
  | joinError
  | taskFailed
  | finished (files : List PathM)
deriving DecidableEq, Repr

/-- Paths contributed to `paths` by one join outcome, keeping those the
comparator lets through (`keep` abstracts `is_version_unarchived` with the
fetched manifest). -/
def outcomePaths (keep : PathM → Bool) : JoinOutcome → List PathM
  | .joinError => []
  | .taskFailed => []
  | .finished files => files.filter keep

/-- Model of `main` after logger setup: `try_join!` fails the run when either
the discovery (`get_game_jars`) or the manifest fetch errs; afterwards every
join outcome is consumed without ever producing an error, and the run returns
`Ok(())` — exit status `0` — with the surviving paths printed to stdout. -/
def mainRun (gameJars : Except Unit (List JoinOutcome))
    (archivedHashes : Except Unit (List DigestM))
    (keep : List DigestM → PathM → Bool) : Except Unit (List PathM) :=
  match gameJars, archivedHashes with
  | .ok outcomes, .ok hashes => .ok (outcomes.flatMap (outcomePaths (keep hashes)))
  | .error _, _ => .error ()
  | _, .error _ => .error ()

/-- Extracted paths of a whole run before the manifest filter: one retrieval
task per download identifier, each writing under its own directory. -/
def runPaths (tasks : List (Nat × List ZipEntry)) : List PathM :=
  tasks.flatMap (fun t => taskPaths t.1 t.2)

example :
    mainRun (.ok [.taskFailed, .finished [[OsStrM.utf8 "1"]]]) (.ok []) (fun _ _ => true)
      = .ok [[OsStrM.utf8 "1"]] := rfl

example :
    (downloadGameJarsFs (TaskEnv.mk true false false []) 7 []).fs
      = [[OsStrM.utf8 "7"]] := by decide

/-! ## Injectivity of the decimal rendering

`destDir` names the per-identifier directory with `Nat.repr`; distinct
identifiers give distinct directory names. -/

theorem toDigitsCore_shift (b : Nat) (hb : 2 ≤ b) :
    ∀ fuel n ds, n < fuel →
      Nat.toDigitsCore b fuel n ds = Nat.toDigitsCore b fuel n [] ++ ds := by
  intro fuel
  induction fuel with
  | zero => intro n ds h; omega
  | succ f ih =>
    intro n ds h
    simp only [Nat.toDigitsCore]
    by_cases h0 : n / b = 0
    · simp [h0]
    · have hn : 0 < n := by
        rcases Nat.eq_zero_or_pos n with h1 | h1
        · exact absurd (by simp [h1]) h0
        · exact h1
      have hnb : n / b < n := Nat.div_lt_self hn (by omega)
      have hf : n / b < f := by omega
      simp only [h0, if_false]
      rw [ih (n / b) ((n % b).digitChar :: ds) hf, ih (n / b) [(n % b).digitChar] hf]
      simp

theorem toDigitsCore_fuel (b : Nat) (hb : 2 ≤ b) :
    ∀ n fuel fuel', n < fuel → n < fuel' →
      Nat.toDigitsCore b fuel n [] = Nat.toDigitsCore b fuel' n [] := by
  intro n
  induction n using Nat.strong_induction_on with
  | _ n ih =>
    intro fuel fuel' h h'
    match fuel, fuel' with
    | f + 1, f' + 1 =>
      simp only [Nat.toDigitsCore]
      by_cases h0 : n / b = 0
      · simp [h0]
      · have hn : 0 < n := by
          rcases Nat.eq_zero_or_pos n with h1 | h1
          · exact absurd (by simp [h1]) h0
          · exact h1
        have hnb : n / b < n := Nat.div_lt_self hn (by omega)
        simp only [h0, if_false]
        rw [toDigitsCore_shift b hb f (n / b) _ (by omega),
          toDigitsCore_shift b hb f' (n / b) _ (by omega),
          ih (n / b) hnb f f' (by omega) (by omega)]

theorem toDigits_step (n : Nat) :
    Nat.toDigits 10 n =
      if n < 10 then [Nat.digitChar n]
      else Nat.toDigits 10 (n / 10) ++ [Nat.digitChar (n % 10)] := by
  unfold Nat.toDigits
  simp only [Nat.toDigitsCore]
  by_cases h0 : n / 10 = 0
  · have hlt : n < 10 := by omega
    simp [h0, hlt, Nat.mod_eq_of_lt hlt]
  · have hge : ¬n < 10 := by omega
    simp only [h0, if_false, hge]
    rw [toDigitsCore_shift 10 (by omega) n (n / 10) _ (by omega)]
    congr 1
    exact toDigitsCore_fuel 10 (by omega) (n / 10) n (n / 10 + 1) (by omega) (by omega)

/-- Decimal value of a digit character list, the left inverse of `toDigits`. -/
def decVal (l : List Char) : Nat := l.foldl (fun a c => 10 * a + (c.toNat - 48)) 0

theorem decVal_toDigits (n : Nat) : decVal (Nat.toDigits 10 n) = n := by
  induction n using Nat.strong_induction_on with
  | _ n ih =>
    rw [toDigits_step]
    by_cases h : n < 10
    · simp only [h, if_true]
      interval_cases n <;> rfl
    · simp only [h, if_false]
      have h1 : n / 10 < n := Nat.div_lt_self (by omega) (by omega)
      have h2 := ih (n / 10) h1
      have hd : (Nat.digitChar (n % 10)).toNat - 48 = n % 10 := by
        have hm : n % 10 < 10 := Nat.mod_lt _ (by omega)
        set m := n % 10 with hmdef
        interval_cases m <;> rfl
      unfold decVal at h2 ⊢
      rw [List.foldl_append, h2]
      simp only [List.foldl]
      omega

theorem natRepr_injective : Function.Injective Nat.repr := by
  intro m n h
  have hdig : Nat.toDigits 10 m = Nat.toDigits 10 n := by
    have hdata := congrArg String.data h
    simpa [Nat.repr, List.asString] using hdata
  have := congrArg decVal hdig
  simpa [decVal_toDigits] using this

/-! ## Claim theorems -/

/-- C1: starting from a clean hasher, `is_version_unarchived` returns `true`
iff the SHA-256 digest of the file's full byte content is not present in the
manifest set; on an open failure or a read failure it returns `false` and an
error is logged. -/
theorem isVersionUnarchived_spec (sha : List Nat → DigestM)
    (archivedHashes : List DigestM) (file : FileReadM) :
    (∀ content, file = FileReadM.ok content →
      ((isVersionUnarchived sha archivedHashes [] file).value = true ↔
        sha content ∉ archivedHashes)) ∧
    (∀ got, file = FileReadM.openFail ∨ file = FileReadM.readFailAfter got →
      (isVersionUnarchived sha archivedHashes [] file).value = false ∧
        LogLevel.error ∈ (isVersionUnarchived sha archivedHashes [] file).logs) := by
  constructor
  · rintro content rfl
    by_cases h : sha content ∈ archivedHashes <;>
      simp [isVersionUnarchived, List.contains, h]
  · rintro got (rfl | rfl) <;> simp [isVersionUnarchived]

theorem isVersionUnarchived_spec_witness :
    ((isVersionUnarchived (fun l => l) [[2]] [] (FileReadM.ok [1])).value = true ↔
      ([1] : DigestM) ∉ [[2]]) ∧
    (isVersionUnarchived (fun l => l) [[2]] [] FileReadM.openFail).value = false := by
  refine ⟨?_, ?_⟩
  · have h := (isVersionUnarchived_spec (fun l => l) [[2]] (FileReadM.ok [1])).1 [1] rfl
    exact h
  · exact ((isVersionUnarchived_spec (fun l => l) [[2]] FileReadM.openFail).2 []
      (Or.inl rfl)).1

/-- C4: the shared hasher is NOT always clean at the start of a call — after a
call whose read failed midway (here after absorbing bytes 97, 98, 99) the
bytes stay absorbed, and the next call on a file with content 100 hashes the
leftover bytes together with that content: it answers `true` (fresh) although
the digest of the file's actual content is in the manifest. -/
theorem hasher_leftover_after_read_failure :
    (isVersionUnarchived (fun l => l) [[100]] []
        (FileReadM.readFailAfter [97, 98, 99])).hasher = [97, 98, 99] ∧
    (isVersionUnarchived (fun l => l) [[100]]
        (isVersionUnarchived (fun l => l) [[100]] []
          (FileReadM.readFailAfter [97, 98, 99])).hasher
        (FileReadM.ok [100])).value = true ∧
    (fun (l : List Nat) => l) [100] ∈ [[100]] := by
  decide

/-- The selection rule as the claim states it, on a sanitized relative name:
the base name decodes to UTF-8, begins with the literal `Cosmic Reach-`, and
the extension compares case-insensitively equal to `jar`. -/
def selRule (rel : PathM) : Prop :=
  ∃ fn, (fileNameM rel).bind osToStr = some fn ∧
    strStartsWith fn "Cosmic Reach-" = true ∧
    ∃ ext, extensionOf fn = some ext ∧ eqIgnoreAsciiCase ext "jar" = true

theorem isGameJar_iff_selRule (rel : PathM) : isGameJar rel = true ↔ selRule rel := by
  unfold isGameJar selRule
  cases h : (fileNameM rel).bind osToStr with
  | none => simp
  | some fn =>
    dsimp only
    constructor
    · intro hsel
      refine ⟨fn, rfl, ?_⟩
      cases hext : extensionOf fn with
      | none =>
        rw [hext] at hsel
        simp at hsel
      | some ext =>
        rw [hext, Bool.and_eq_true] at hsel
        exact ⟨hsel.1, ext, rfl, hsel.2⟩
    · rintro ⟨fn', hfn, h1, ext, hext, h2⟩
      cases Option.some.inj hfn
      rw [hext, Bool.and_eq_true]
      exact ⟨h1, h2⟩

/-- C2: when the per-entry filesystem effects succeed, an archive entry is
extracted iff its sanitized relative name satisfies the selection rule — base
name beginning with the literal `Cosmic Reach-` AND extension comparing
case-insensitively equal to `jar`; an entry whose name fails either condition
is never extracted, whatever the effects do. -/
theorem entry_extracted_iff_selRule (dest : PathM) (e : ZipEntry) :
    (e.accessOk = true → e.createOk = true → e.copyOk = true →
      ((processEntry dest e).isSome ↔ selRule (mangledName e.rawName))) ∧
    (¬selRule (mangledName e.rawName) → processEntry dest e = none) := by
  constructor
  · intro hA hC hW
    rw [← isGameJar_iff_selRule]
    by_cases hg : isGameJar (mangledName e.rawName) = true
    · simp [processEntry, hA, hC, hW, hg]
    · simp only [Bool.not_eq_true] at hg
      simp [processEntry, hA, hC, hW, hg]
  · intro hns
    have hg : isGameJar (mangledName e.rawName) = false := by
      by_contra hne
      simp only [Bool.not_eq_false] at hne
      exact hns ((isGameJar_iff_selRule _).mp hne)
    cases hA : e.accessOk <;> simp [processEntry, hA, hg]

theorem entry_extracted_iff_selRule_witness :
    ((processEntry (destDir 9)
        ⟨[ZipComponent.normal (OsStrM.utf8 "Cosmic Reach-0.3.jar")],
          true, true, true⟩).isSome ↔
      selRule (mangledName
        [ZipComponent.normal (OsStrM.utf8 "Cosmic Reach-0.3.jar")])) ∧
    processEntry (destDir 9) ⟨[], true, true, true⟩ = none := by
  refine ⟨(entry_extracted_iff_selRule (destDir 9) _).1 rfl rfl rfl,
    (entry_extracted_iff_selRule (destDir 9) _).2 ?_⟩
  simp [selRule, mangledName, fileNameM]

/-- C9 counterexample: an entry whose sanitized name is not valid UTF-8 as a
whole — here a non-UTF-8 directory component below a well-formed base name —
is nevertheless extracted: only the base name is decoded by the guard at
line 234. -/
theorem nonUtf8_component_entry_extracted :
    processEntry (destDir 3)
      ⟨[ZipComponent.normal (OsStrM.raw [255]),
        ZipComponent.normal (OsStrM.utf8 "Cosmic Reach-1.jar")],
        true, true, true⟩
      = some [OsStrM.utf8 "3", OsStrM.raw [255],
          OsStrM.utf8 "Cosmic Reach-1.jar"] := by
  decide

/-- C9 amended: an entry whose sanitized name's base-name component is not
valid UTF-8 is silently skipped — never extracted and no file created —
whatever its raw bytes are and whatever the filesystem effects would do. -/
theorem nonUtf8_basename_skipped (dest : PathM) (e : ZipEntry) (bs : List Nat)
    (h : fileNameM (mangledName e.rawName) = some (OsStrM.raw bs)) :
    processEntry dest e = none ∧ entryWrites dest e = [] := by
  have hg : isGameJar (mangledName e.rawName) = false := by
    unfold isGameJar
    rw [h]
    simp [osToStr]
  constructor
  · cases hA : e.accessOk <;> simp [processEntry, hA, hg]
  · simp [entryWrites, hg]

theorem nonUtf8_basename_skipped_witness :
    processEntry (destDir 3)
      ⟨[ZipComponent.normal (OsStrM.raw [67, 255])], true, true, true⟩ = none :=
  (nonUtf8_basename_skipped (destDir 3)
    ⟨[ZipComponent.normal (OsStrM.raw [67, 255])], true, true, true⟩
    [67, 255] (by decide)).1

/-- C6: every file written while processing an entry of the task for download
identifier `id` lies strictly under the destination directory named after the
decimal form of `id` — even when the raw entry name carried absolute or
parent-relative components, as those are stripped by the sanitizer. -/
theorem written_under_destDir (id : Nat) (e : ZipEntry) (p : PathM)
    (h : p ∈ entryWrites (destDir id) e) :
    ∃ rest, rest ≠ [] ∧ p = destDir id ++ rest := by
  unfold entryWrites at h
  split at h
  case isTrue hcond =>
    rw [List.mem_singleton] at h
    refine ⟨mangledName e.rawName, ?_, h⟩
    have hg : isGameJar (mangledName e.rawName) = true := by
      rw [Bool.and_eq_true, Bool.and_eq_true] at hcond
      exact hcond.1.2
    rcases (isGameJar_iff_selRule _).mp hg with ⟨fn, hfn, -⟩
    intro hnil
    rw [hnil] at hfn
    simp [fileNameM] at hfn
  case isFalse => simp at h

theorem written_under_destDir_witness :
    ∃ rest, rest ≠ [] ∧
      ([OsStrM.utf8 "9", OsStrM.raw [0], OsStrM.utf8 "Cosmic Reach-1.0.jar"] : PathM)
        = destDir 9 ++ rest :=
  written_under_destDir 9
    ⟨[ZipComponent.rootDir, ZipComponent.parentDir,
      ZipComponent.normal (OsStrM.raw [0]),
      ZipComponent.normal (OsStrM.utf8 "Cosmic Reach-1.0.jar")],
      true, true, true⟩
    [OsStrM.utf8 "9", OsStrM.raw [0], OsStrM.utf8 "Cosmic Reach-1.0.jar"]
    (by decide)

/-! ## Hex codec lemmas -/

theorem lowerHex_hexVal (b : Nat) (h : isLowerHexDigit b = true) :
    ∃ v, hexVal b = some v ∧ v < 16 ∧ hexDigitByte v = b := by
  simp only [isLowerHexDigit, decide_eq_true_eq] at h
  rcases h with ⟨h1, h2⟩ | ⟨h1, h2⟩
  · refine ⟨b - 48, ?_, by omega, ?_⟩
    · unfold hexVal
      rw [if_pos ⟨h1, h2⟩]
    · unfold hexDigitByte
      rw [if_pos (by omega)]
      omega
  · refine ⟨b - 87, ?_, by omega, ?_⟩
    · unfold hexVal
      rw [if_neg (by omega), if_pos ⟨h1, h2⟩]
    · unfold hexDigitByte
      rw [if_neg (by omega)]
      omega

theorem hexVal_hexDigitByte (n : Nat) (h : n < 16) : hexVal (hexDigitByte n) = some n := by
  unfold hexVal hexDigitByte
  by_cases h10 : n < 10
  · rw [if_pos h10, if_pos (show 48 ≤ 48 + n ∧ 48 + n ≤ 57 by omega)]
    congr 1
    omega
  · rw [if_neg h10, if_neg (show ¬(48 ≤ 87 + n ∧ 87 + n ≤ 57) by omega),
      if_pos (show 97 ≤ 87 + n ∧ 87 + n ≤ 102 by omega)]
    congr 1
    omega

theorem decodePairs_encode : (a : List Nat) → (∀ b ∈ a, b < 256) →
    decodePairs (sha256ToStr a) = some a
  | [], _ => rfl
  | b :: rest, h => by
    have hb : b < 256 := h b (by simp)
    have hrest := decodePairs_encode rest (fun x hx => h x (by simp [hx]))
    show decodePairs (encodeByte b ++ sha256ToStr rest) = some (b :: rest)
    rw [show encodeByte b ++ sha256ToStr rest
        = hexDigitByte (b % 256 / 16) :: hexDigitByte (b % 16) :: sha256ToStr rest from rfl]
    rw [decodePairs, hexVal_hexDigitByte _ (by omega), hexVal_hexDigitByte _ (by omega), hrest]
    dsimp only
    rw [Nat.mod_eq_of_lt hb]
    congr 2
    exact Nat.div_add_mod b 16

theorem sha256ToStr_length (a : List Nat) : (sha256ToStr a).length = 2 * a.length := by
  induction a with
  | nil => rfl
  | cons b rest ih =>
    show (encodeByte b ++ sha256ToStr rest).length = 2 * (rest.length + 1)
    rw [List.length_append, ih]
    simp [encodeByte]
    omega

theorem encode_decodePairs : (s : List Nat) → (∀ b ∈ s, isLowerHexDigit b = true) →
    ∀ a, decodePairs s = some a → sha256ToStr a = s
  | [], _, a, ha => by
    rw [decodePairs] at ha
    cases ha
    rfl
  | [b], _, a, ha => by
    rw [decodePairs] at ha
    cases ha
  | b1 :: b2 :: rest, hlh, a, ha => by
    obtain ⟨v1, hv1, hlt1, henc1⟩ := lowerHex_hexVal b1 (hlh b1 (by simp))
    obtain ⟨v2, hv2, hlt2, henc2⟩ := lowerHex_hexVal b2 (hlh b2 (by simp))
    rw [decodePairs, hv1, hv2] at ha
    cases hrest : decodePairs rest with
    | none =>
      rw [hrest] at ha
      cases ha
    | some tail =>
      rw [hrest] at ha
      dsimp only at ha
      cases ha
      have htail := encode_decodePairs rest (fun x hx => hlh x (by simp [hx])) tail hrest
      show encodeByte (16 * v1 + v2) ++ sha256ToStr tail = b1 :: b2 :: rest
      rw [htail]
      unfold encodeByte
      rw [show (16 * v1 + v2) % 256 = 16 * v1 + v2 from Nat.mod_eq_of_lt (by omega)]
      rw [show (16 * v1 + v2) / 16 = v1 by omega, show (16 * v1 + v2) % 16 = v2 by omega]
      rw [henc1, henc2]
      rfl


theorem decodePairs_total : (s : List Nat) → (∀ b ∈ s, isLowerHexDigit b = true) →
    s.length % 2 = 0 → ∃ a, decodePairs s = some a
  | [], _, _ => ⟨[], rfl⟩
  | [_], _, hlen => by simp at hlen
  | b1 :: b2 :: rest, hlh, hlen => by
    obtain ⟨v1, hv1, -, -⟩ := lowerHex_hexVal b1 (hlh b1 (by simp))
    obtain ⟨v2, hv2, -, -⟩ := lowerHex_hexVal b2 (hlh b2 (by simp))
    obtain ⟨tail, htail⟩ := decodePairs_total rest (fun x hx => hlh x (by simp [hx]))
      (by simp only [List.length_cons] at hlen ⊢; omega)
    exact ⟨(16 * v1 + v2) :: tail, by rw [decodePairs, hv1, hv2, htail]⟩

theorem decodePairs_bad : (s : List Nat) → ∀ b ∈ s, hexVal b = none → decodePairs s = none
  | [], b, hb, _ => absurd hb (by simp)
  | [_], _, _, _ => by rw [decodePairs]
  | b1 :: b2 :: rest, b, hb, hbad => by
    rw [decodePairs]
    rcases (by simpa using hb : b = b1 ∨ b = b2 ∨ b ∈ rest) with rfl | rfl | hmem
    · rw [hbad]
    · cases hv1 : hexVal b1 <;> rw [hbad]
    · rw [decodePairs_bad rest b hmem hbad]
      cases hv1 : hexVal b1 <;> cases hv2 : hexVal b2 <;> rfl

/-- C5 counterexample: a 64-byte all-uppercase input (64 times `A`, byte 65),
which is not lowercase hexadecimal, is NOT rejected by parsing: it decodes to
the 32-octet array of value 170. -/
theorem uppercase_hex_parsed :
    sha256FromStr (List.replicate 64 65) = some (List.replicate 32 170) ∧
    (List.replicate 64 65).all (fun b => !isLowerHexDigit b) = true := by
  decide

/-- C5 amended: parsing the lowercase-hex encoding of a 32-octet array yields
the array back; re-encoding a parsed all-lowercase-hex 64-byte string returns
the same string; inputs of length other than 64, or containing a byte that is
not a hex digit of either case, are rejected — but hex digits are accepted
case-insensitively, so uppercase hex of length 64 parses (re-encoding then
yields the lowercase form). -/
theorem sha256Hash_roundTrip :
    (∀ a : DigestM, a.length = 32 → (∀ b ∈ a, b < 256) →
      sha256FromStr (sha256ToStr a) = some a) ∧
    (∀ s : List Nat, s.length = 64 → (∀ b ∈ s, isLowerHexDigit b = true) →
      ∃ a, sha256FromStr s = some a ∧ sha256ToStr a = s) ∧
    (∀ s : List Nat, s.length ≠ 64 → sha256FromStr s = none) ∧
    (∀ s : List Nat, ∀ b ∈ s, hexVal b = none → sha256FromStr s = none) := by
  refine ⟨?_, ?_, ?_, ?_⟩
  · intro a hlen hbytes
    unfold sha256FromStr
    rw [if_pos (by rw [sha256ToStr_length, hlen])]
    exact decodePairs_encode a hbytes
  · intro s hlen hlh
    obtain ⟨a, ha⟩ := decodePairs_total s hlh (by omega)
    refine ⟨a, ?_, encode_decodePairs s hlh a ha⟩
    unfold sha256FromStr
    rw [if_pos hlen]
    exact ha
  · intro s hlen
    unfold sha256FromStr
    rw [if_neg hlen]
  · intro s b hb hbad
    unfold sha256FromStr
    by_cases hlen : s.length = 64
    · rw [if_pos hlen, decodePairs_bad s b hb hbad]
    · rw [if_neg hlen]

theorem sha256Hash_roundTrip_witness :
    sha256FromStr (sha256ToStr (List.replicate 32 0)) = some (List.replicate 32 0) ∧
    sha256FromStr [97] = none :=
  ⟨sha256Hash_roundTrip.1 (List.replicate 32 0) (by decide) (by decide),
   sha256Hash_roundTrip.2.2.1 [97] (by decide)⟩

/-- C3 counterexample: on a body (bytes of `not`) that fails JSON parsing, the
raw bytes are dumped to standard output — not to the stderr diagnostic stream
— before failure is returned, so stdout does not carry only extracted paths. -/
theorem parse_failure_dumps_to_stdout :
    (getVersionHashes (fun _ => none) (RespOutcome.gotBody [110, 111, 116])).stdoutChunks
        = [[110, 111, 116]] ∧
    (getVersionHashes (fun _ => none) (RespOutcome.gotBody [110, 111, 116])).result
        = Except.error () :=
  ⟨rfl, rfl⟩

/-- C3 amended: when the manifest body fails to parse as JSON, the fetch
component dumps the raw response body to standard output (error diagnostics go
to the stderr log) before returning failure; stdout therefore carries the raw
body in this case, in addition to extracted paths. -/
theorem parse_failure_emits_body (parse : List Nat → Option VersionsM)
    (body : List Nat) (h : parse body = none) :
    (getVersionHashes parse (RespOutcome.gotBody body)).result = Except.error () ∧
    body ∈ (getVersionHashes parse (RespOutcome.gotBody body)).stdoutChunks ∧
    LogLevel.error ∈ (getVersionHashes parse (RespOutcome.gotBody body)).logs := by
  unfold getVersionHashes
  dsimp only
  rw [h]
  exact ⟨rfl, by simp, by simp⟩

theorem parse_failure_emits_body_witness :
    (getVersionHashes (fun _ => none) (RespOutcome.gotBody [1])).result
      = Except.error () :=
  (parse_failure_emits_body (fun _ => none) [1] rfl).1

/-- C7: the run returns `Ok` — exit status 0 — iff both the download
discovery and the manifest fetch succeed, whatever the join outcomes are; one
failed per-identifier task leaves the result exactly what it would have been
without that task — it costs no paths of its peers and no exit status; and a
retrieval task that fails always logs an error. -/
theorem mainRun_ok_iff (gameJars : Except Unit (List JoinOutcome))
    (archivedHashes : Except Unit (List DigestM))
    (keep : List DigestM → PathM → Bool) :
    ((mainRun gameJars archivedHashes keep).isOk = true ↔
      gameJars.isOk = true ∧ archivedHashes.isOk = true) ∧
    (∀ (outs1 outs2 : List JoinOutcome) (hashes : List DigestM),
      mainRun (.ok (outs1 ++ JoinOutcome.taskFailed :: outs2)) (.ok hashes) keep
        = mainRun (.ok (outs1 ++ outs2)) (.ok hashes) keep) ∧
    (∀ (env : TaskEnv) (id : Nat) (fs : List PathM),
      (downloadGameJarsFs env id fs).result = .error () →
        LogLevel.error ∈ (downloadGameJarsFs env id fs).logs) := by
  refine ⟨?_, ?_, ?_⟩
  · cases gameJars <;> cases archivedHashes <;> simp [mainRun, Except.isOk, Except.toBool]
  · intro outs1 outs2 hashes
    simp [mainRun, outcomePaths]
  · intro env id fs herr
    obtain ⟨netOk, dirCreateFail, zipOk, entries⟩ := env
    cases netOk <;> cases dirCreateFail <;> cases zipOk <;>
      by_cases hin : destDir id ∈ fs <;>
      simp [downloadGameJarsFs, hin] at herr ⊢

/-- C10: when the network download of a retrieval task succeeds and the
directory-creation step does not itself fail, the destination directory is in
the filesystem after the task — in particular even when the body then fails
ZIP validation, since the directory is created before `ZipArchive::new` runs —
and the task never removes anything from the filesystem. -/
theorem destDir_persists (env : TaskEnv) (id : Nat) (fs : List PathM) :
    (env.netOk = true → (destDir id ∈ fs ∨ env.dirCreateFail = false) →
      destDir id ∈ (downloadGameJarsFs env id fs).fs) ∧
    (∀ p ∈ fs, p ∈ (downloadGameJarsFs env id fs).fs) := by
  unfold downloadGameJarsFs
  cases hnet : env.netOk with
  | false =>
    refine ⟨fun h _ => absurd h (by simp), fun p hp => ?_⟩
    simpa using hp
  | true =>
    constructor
    · intro _ hok
      rw [if_neg (by simp)]
      by_cases hin : destDir id ∈ fs
      · rw [if_pos hin]
        cases env.zipOk <;> simp [hin]
      · rw [if_neg hin]
        have hdcf : env.dirCreateFail = false := by
          rcases hok with h | h
          · exact absurd h hin
          · exact h
        rw [hdcf]
        cases env.zipOk <;> simp
    · intro p hp
      rw [if_neg (by simp)]
      by_cases hin : destDir id ∈ fs
      · rw [if_pos hin]
        cases env.zipOk <;> simp [hp]
      · rw [if_neg hin]
        cases hdcf : env.dirCreateFail
        · cases env.zipOk <;> simp [hp]
        · simp [hp]

theorem destDir_persists_witness :
    destDir 7 ∈ (downloadGameJarsFs (TaskEnv.mk true false false [])
        7 [[OsStrM.utf8 "keep"]]).fs ∧
    [OsStrM.utf8 "keep"] ∈ (downloadGameJarsFs (TaskEnv.mk true false false [])
        7 [[OsStrM.utf8 "keep"]]).fs :=
  ⟨(destDir_persists (TaskEnv.mk true false false []) 7 [[OsStrM.utf8 "keep"]]).1
      rfl (Or.inr rfl),
   (destDir_persists (TaskEnv.mk true false false []) 7 [[OsStrM.utf8 "keep"]]).2
      [OsStrM.utf8 "keep"] (by decide)⟩

theorem processEntry_cases (dest : PathM) (e : ZipEntry) :
    processEntry dest e = none ∨
      processEntry dest e = some (dest ++ mangledName e.rawName) := by
  unfold processEntry
  cases hA : e.accessOk <;> cases hg : isGameJar (mangledName e.rawName) <;>
    cases hC : e.createOk <;> cases hW : e.copyOk <;> simp [hg]

theorem mem_taskPaths_head (id : Nat) (es : List ZipEntry) (p : PathM)
    (h : p ∈ taskPaths id es) : ∃ rest, p = OsStrM.utf8 (Nat.repr id) :: rest := by
  unfold taskPaths at h
  rw [List.mem_filterMap] at h
  obtain ⟨e, -, he⟩ := h
  rcases processEntry_cases (destDir id) e with hc | hc
  · rw [hc] at he
    cases he
  · rw [hc] at he
    have hp := (Option.some.inj he).symm
    exact ⟨mangledName e.rawName, by simpa [destDir] using hp⟩

/-- C8 counterexample: two archive entries of one download with the same
sanitized name `Cosmic Reach-1.jar` extract to the same output path, so the
run's extracted paths are not pairwise distinct. -/
theorem duplicate_entry_paths_collide :
    ¬ (runPaths [(1,
        [⟨[ZipComponent.normal (OsStrM.utf8 "Cosmic Reach-1.jar")], true, true, true⟩,
         ⟨[ZipComponent.normal (OsStrM.utf8 "Cosmic Reach-1.jar")], true, true, true⟩])]).Nodup := by
  decide

/-- C8 amended: extracted paths of different download identifiers never
collide — each identifier writes only under the directory named after its
decimal form, and those names are injective in the identifier — and the
extracted paths of a whole run are pairwise distinct provided each single
task's extracted paths are (which fails only when one archive holds two
selected entries with the same sanitized name). -/
theorem runPaths_nodup : (tasks : List (Nat × List ZipEntry)) →
    (tasks.map Prod.fst).Nodup →
    (∀ t ∈ tasks, (taskPaths t.1 t.2).Nodup) →
    (runPaths tasks).Nodup
  | [], _, _ => by simp [runPaths]
  | (id, es) :: rest, hids, heach => by
    rw [List.map_cons, List.nodup_cons] at hids
    obtain ⟨hnotin, hrestids⟩ := hids
    have hrest := runPaths_nodup rest hrestids (fun t ht => heach t (by simp [ht]))
    rw [show runPaths ((id, es) :: rest) = taskPaths id es ++ runPaths rest from
      List.flatMap_cons ..]
    refine List.Nodup.append (heach (id, es) (by simp)) hrest ?_
    intro p hp1 hp2
    obtain ⟨r1, hr1⟩ := mem_taskPaths_head id es p hp1
    unfold runPaths at hp2
    rw [List.mem_flatMap] at hp2
    obtain ⟨t, ht, hpt⟩ := hp2
    obtain ⟨r2, hr2⟩ := mem_taskPaths_head t.1 t.2 p hpt
    rw [hr1] at hr2
    have hhead : OsStrM.utf8 (Nat.repr id) = OsStrM.utf8 (Nat.repr t.1) :=
      (List.cons.inj hr2).1
    have hid : id = t.1 := natRepr_injective (OsStrM.utf8.inj hhead)
    have hmem : t.1 ∈ rest.map Prod.fst := List.mem_map_of_mem Prod.fst ht
    rw [← hid] at hmem
    exact hnotin hmem

theorem runPaths_nodup_witness :
    (runPaths [(1,
        [⟨[ZipComponent.normal (OsStrM.utf8 "Cosmic Reach-1.jar")], true, true, true⟩]),
      (2,
        [⟨[ZipComponent.normal (OsStrM.utf8 "Cosmic Reach-1.jar")], true, true, true⟩])]).Nodup :=
  runPaths_nodup _ (by decide) (by decide)

theorem mainRun_ok_iff_witness :
    LogLevel.error ∈ (downloadGameJarsFs (TaskEnv.mk false false true []) 5 []).logs :=
  (mainRun_ok_iff (.ok []) (.ok []) (fun _ _ => true)).2.2
    (TaskEnv.mk false false true []) 5 [] rfl
